import Mathlib

/-!
Verification of the promo-deploy repository.

This file gives a shallow embedding of the repository's logic:

* `getWebsiteBucketName` (src/platform-stack.ts / website-bucket-name):
  domain sanitization and bucket-name validation, embedded over `List Char`.
* `getRegionFromProfile`, `findDistributionsForBucket`, `deployWebsite`
  (src/deploy-website.ts): region resolution from shared ini files and
  environment, paginated CloudFront distribution discovery, and the
  sync-then-invalidate orchestration, embedded with the external world
  (config files, environment, sync outcome, list-distribution pages,
  millisecond clock) passed explicitly and the issued requests recorded
  as an event trace.

JavaScript strings are embedded as `List Char` where character-level
reasoning is needed and as `String` elsewhere; JavaScript truthiness of a
possibly-absent string (`undefined` or `""` is falsy) is made explicit.
-/

set_option autoImplicit false

namespace PromoDeploy

/-! ### Bucket-name derivation (getWebsiteBucketName) -/

/-- Characters that survive the sanitization filter: the regex
`[^a-z0-9-]` removes everything but lowercase letters, digits and
hyphens. -/
def isValidChar (c : Char) : Bool :=
  ('a' ≤ c && c ≤ 'z') || ('0' ≤ c && c ≤ '9') || c = '-'

/-- The hyphen-run replacement (regex `-+` replaced globally by `-`):
collapse every run of consecutive hyphens to a single hyphen. -/
def collapseHyphens : List Char → List Char
  | [] => []
  | c :: rest =>
    match collapseHyphens rest with
    | [] => [c]
    | d :: ds => if c = '-' && d = '-' then d :: ds else c :: d :: ds

/-- The leading half of the edge-trim replacement (regex `^-` or `-$`
replaced by the empty string): remove one leading hyphen. -/
def dropOneLeadingHyphen : List Char → List Char
  | [] => []
  | c :: rest => if c = '-' then rest else c :: rest

/-- The trailing half of the edge-trim replacement: remove one trailing
hyphen. -/
def dropOneTrailingHyphen : List Char → List Char
  | [] => []
  | [c] => if c = '-' then [] else [c]
  | c :: d :: rest => c :: dropOneTrailingHyphen (d :: rest)

/-- The sanitization pipeline of `getWebsiteBucketName`: lowercase,
replace dots by hyphens, strip invalid characters, collapse repeated
hyphens, trim one hyphen at each edge. -/
def sanitizeDomain (domain : List Char) : List Char :=
  dropOneTrailingHyphen (dropOneLeadingHyphen (collapseHyphens
    (((domain.map Char.toLower).map (fun c => if c = '.' then '-' else c)).filter isValidChar)))

/-- Message of the too-short validation error. -/
def tooShortMessage (bucketName : List Char) : String :=
  "Bucket name too short: \"" ++ String.mk bucketName ++ "\""

/-- Message of the too-long validation error. -/
def tooLongMessage (bucketName : List Char) : String :=
  "Bucket name too long: \"" ++ String.mk bucketName ++ "\" (" ++
    Nat.repr bucketName.length ++ " chars, max 63)"

/-- `getWebsiteBucketName` from src/platform-stack.ts: sanitize the
domain, append `-website`, and validate the 3–63 length bounds, throwing
(modelled as `Except.error`) a too-short or too-long message. -/
def getWebsiteBucketName (domain : List Char) : Except String (List Char) :=
  let sanitized := sanitizeDomain domain
  let bucketName := sanitized ++ "-website".toList
  if bucketName.length < 3 then
    Except.error (tooShortMessage bucketName)
  else if bucketName.length > 63 then
    Except.error (tooLongMessage bucketName)
  else
    Except.ok bucketName

theorem getWebsiteBucketName_eq (domain : List Char) :
    getWebsiteBucketName domain =
      if (sanitizeDomain domain ++ "-website".toList).length < 3 then
        Except.error (tooShortMessage (sanitizeDomain domain ++ "-website".toList))
      else if (sanitizeDomain domain ++ "-website".toList).length > 63 then
        Except.error (tooLongMessage (sanitizeDomain domain ++ "-website".toList))
      else
        Except.ok (sanitizeDomain domain ++ "-website".toList) := rfl

example : getWebsiteBucketName "example.com".toList = Except.ok "example-com-website".toList := by rfl

example : getWebsiteBucketName "".toList = Except.ok "-website".toList := by rfl

/-- No two consecutive hyphens occur in the list. -/
def noConsecutiveHyphens : List Char → Bool
  | [] => true
  | [_] => true
  | c :: d :: rest => !(c = '-' && d = '-') && noConsecutiveHyphens (d :: rest)

theorem noConsecutiveHyphens_tail {a : Char} {l : List Char}
    (h : noConsecutiveHyphens (a :: l) = true) : noConsecutiveHyphens l = true := by
  cases l with
  | nil => rfl
  | cons d rest =>
    simp only [noConsecutiveHyphens, Bool.and_eq_true] at h
    exact h.2

theorem collapseHyphens_cons_nil (a : Char) {l : List Char}
    (h : collapseHyphens l = []) : collapseHyphens (a :: l) = [a] := by
  rw [collapseHyphens, h]

theorem collapseHyphens_cons_cons (a d : Char) (ds : List Char) {l : List Char}
    (h : collapseHyphens l = d :: ds) :
    collapseHyphens (a :: l) = if a = '-' && d = '-' then d :: ds else a :: d :: ds := by
  rw [collapseHyphens, h]

theorem mem_collapseHyphens {c : Char} {l : List Char}
    (h : c ∈ collapseHyphens l) : c ∈ l := by
  induction l with
  | nil => simp only [collapseHyphens] at h; exact absurd h (List.not_mem_nil c)
  | cons a rest ih =>
    cases hc : collapseHyphens rest with
    | nil =>
      rw [collapseHyphens_cons_nil a hc] at h
      simp only [List.mem_singleton] at h
      simp [h]
    | cons d ds =>
      rw [collapseHyphens_cons_cons a d ds hc] at h
      by_cases had : a = '-' && d = '-'
      · rw [if_pos had] at h
        have : c ∈ collapseHyphens rest := by rw [hc]; exact h
        exact List.mem_cons_of_mem a (ih this)
      · rw [if_neg had] at h
        rcases List.mem_cons.mp h with h1 | h2
        · simp [h1]
        · have : c ∈ collapseHyphens rest := by rw [hc]; exact h2
          exact List.mem_cons_of_mem a (ih this)

theorem collapseHyphens_head (a : Char) (l : List Char) :
    (collapseHyphens (a :: l)).head? = some a := by
  cases hc : collapseHyphens l with
  | nil => rw [collapseHyphens_cons_nil a hc]; rfl
  | cons d ds =>
    rw [collapseHyphens_cons_cons a d ds hc]
    by_cases had : a = '-' && d = '-'
    · rw [if_pos had]
      simp only [Bool.and_eq_true, decide_eq_true_eq] at had
      simp [had.1, had.2]
    · rw [if_neg had]
      rfl

theorem noConsecutiveHyphens_collapseHyphens (l : List Char) :
    noConsecutiveHyphens (collapseHyphens l) = true := by
  induction l with
  | nil => rfl
  | cons a rest ih =>
    cases hc : collapseHyphens rest with
    | nil => rw [collapseHyphens_cons_nil a hc]; rfl
    | cons d ds =>
      rw [collapseHyphens_cons_cons a d ds hc]
      rw [hc] at ih
      by_cases had : a = '-' && d = '-'
      · rw [if_pos had]
        exact ih
      · rw [if_neg had]
        simp only [noConsecutiveHyphens, Bool.and_eq_true, Bool.not_eq_true']
        exact ⟨by simpa using had, ih⟩

theorem mem_dropOneLeadingHyphen {c : Char} {l : List Char}
    (h : c ∈ dropOneLeadingHyphen l) : c ∈ l := by
  cases l with
  | nil => simp only [dropOneLeadingHyphen] at h; exact absurd h (List.not_mem_nil c)
  | cons a rest =>
    rw [dropOneLeadingHyphen] at h
    by_cases ha : a = '-'
    · rw [if_pos ha] at h
      exact List.mem_cons_of_mem a h
    · rwa [if_neg ha] at h

theorem noConsecutiveHyphens_dropOneLeadingHyphen {l : List Char}
    (h : noConsecutiveHyphens l = true) :
    noConsecutiveHyphens (dropOneLeadingHyphen l) = true := by
  cases l with
  | nil => rfl
  | cons a rest =>
    rw [dropOneLeadingHyphen]
    by_cases ha : a = '-'
    · rw [if_pos ha]
      exact noConsecutiveHyphens_tail h
    · rwa [if_neg ha]

theorem head_dropOneLeadingHyphen {l : List Char}
    (h : noConsecutiveHyphens l = true) :
    (dropOneLeadingHyphen l).head? ≠ some '-' := by
  cases l with
  | nil => simp [dropOneLeadingHyphen]
  | cons a rest =>
    rw [dropOneLeadingHyphen]
    by_cases ha : a = '-'
    · rw [if_pos ha]
      cases rest with
      | nil => simp
      | cons d rest2 =>
        subst ha
        simp only [noConsecutiveHyphens, Bool.and_eq_true, Bool.not_eq_true',
          Bool.and_eq_false_iff, decide_eq_false_iff_not] at h
        rcases h.1 with h1 | h1
        · exact absurd trivial h1
        · simp [h1]
    · rw [if_neg ha]
      simp [ha]

theorem dropOneTrailingHyphen_cons_cons (c d : Char) (rest : List Char) :
    dropOneTrailingHyphen (c :: d :: rest) = c :: dropOneTrailingHyphen (d :: rest) := rfl

theorem mem_dropOneTrailingHyphen {c : Char} {l : List Char}
    (h : c ∈ dropOneTrailingHyphen l) : c ∈ l := by
  induction l with
  | nil => simp only [dropOneTrailingHyphen] at h; exact absurd h (List.not_mem_nil c)
  | cons a rest ih =>
    cases rest with
    | nil =>
      by_cases ha : a = '-'
      · simp [dropOneTrailingHyphen, ha] at h
      · simp only [dropOneTrailingHyphen, if_neg ha] at h
        exact h
    | cons d rest2 =>
      rw [dropOneTrailingHyphen_cons_cons] at h
      rcases List.mem_cons.mp h with h1 | h2
      · simp [h1]
      · exact List.mem_cons_of_mem a (ih h2)

theorem head_dropOneTrailingHyphen {c : Char} {l : List Char}
    (h : (dropOneTrailingHyphen l).head? = some c) : l.head? = some c := by
  cases l with
  | nil => simp [dropOneTrailingHyphen] at h
  | cons a rest =>
    cases rest with
    | nil =>
      by_cases ha : a = '-'
      · simp [dropOneTrailingHyphen, ha] at h
      · simp only [dropOneTrailingHyphen, if_neg ha] at h
        exact h
    | cons d rest2 =>
      rw [dropOneTrailingHyphen_cons_cons] at h
      simpa using h

theorem noConsecutiveHyphens_dropOneTrailingHyphen {l : List Char}
    (h : noConsecutiveHyphens l = true) :
    noConsecutiveHyphens (dropOneTrailingHyphen l) = true := by
  induction l with
  | nil => rfl
  | cons a rest ih =>
    cases rest with
    | nil =>
      by_cases ha : a = '-'
      · simp [dropOneTrailingHyphen, ha]
        rfl
      · simp only [dropOneTrailingHyphen, if_neg ha]
        rfl
    | cons d rest2 =>
      rw [dropOneTrailingHyphen_cons_cons]
      have hrest : noConsecutiveHyphens (d :: rest2) = true := noConsecutiveHyphens_tail h
      have ihd := ih hrest
      cases hY : dropOneTrailingHyphen (d :: rest2) with
      | nil => rfl
      | cons y ys =>
        have hy : y = d := by
          have := head_dropOneTrailingHyphen (l := d :: rest2) (c := y) (by rw [hY]; rfl)
          simpa using this.symm
        subst hy
        simp only [noConsecutiveHyphens, Bool.and_eq_true, Bool.not_eq_true']
        constructor
        · simp only [noConsecutiveHyphens, Bool.and_eq_true, Bool.not_eq_true'] at h
          exact h.1
        · rw [hY] at ihd
          exact ihd

theorem getLast_dropOneTrailingHyphen {l : List Char}
    (h : noConsecutiveHyphens l = true) :
    (dropOneTrailingHyphen l).getLast? ≠ some '-' := by
  induction l with
  | nil => simp [dropOneTrailingHyphen]
  | cons a rest ih =>
    cases rest with
    | nil =>
      by_cases ha : a = '-'
      · simp [dropOneTrailingHyphen, ha]
      · simp only [dropOneTrailingHyphen, if_neg ha, List.getLast?_singleton]
        simp [ha]
    | cons d rest2 =>
      rw [dropOneTrailingHyphen_cons_cons]
      have hrest : noConsecutiveHyphens (d :: rest2) = true := noConsecutiveHyphens_tail h
      have ihd := ih hrest
      cases hY : dropOneTrailingHyphen (d :: rest2) with
      | nil =>
        have hd : d = '-' := by
          cases rest2 with
          | nil =>
            by_cases hd2 : d = '-'
            · exact hd2
            · simp only [dropOneTrailingHyphen, if_neg hd2] at hY
              exact absurd hY (by simp)
          | cons e rest3 => rw [dropOneTrailingHyphen_cons_cons] at hY; exact absurd hY (by simp)
        have hane : ¬(a = '-' ∧ d = '-') := by
          simp only [noConsecutiveHyphens, Bool.and_eq_true, Bool.not_eq_true',
            Bool.and_eq_false_iff, decide_eq_false_iff_not] at h
          rcases h.1 with h1 | h1
          · exact fun hc => h1 hc.1
          · exact fun hc => h1 hc.2
        have ha : a ≠ '-' := fun hc => hane ⟨hc, hd⟩
        simp [ha]
      | cons y ys =>
        rw [List.getLast?_cons_cons]
        rw [hY] at ihd
        exact ihd

theorem noConsecutiveHyphens_append {A B : List Char}
    (hA : noConsecutiveHyphens A = true) (hB : noConsecutiveHyphens B = true)
    (hlast : A.getLast? ≠ some '-' ∨ B.head? ≠ some '-') :
    noConsecutiveHyphens (A ++ B) = true := by
  induction A with
  | nil => simpa using hB
  | cons a rest ih =>
    cases rest with
    | nil =>
      simp only [List.cons_append, List.nil_append]
      cases B with
      | nil => rfl
      | cons b bs =>
        simp only [noConsecutiveHyphens, Bool.and_eq_true, Bool.not_eq_true']
        refine ⟨?_, hB⟩
        have : ¬(a = '-' ∧ b = '-') := by
          rcases hlast with h1 | h1
          · intro hc; exact h1 (by simp [List.getLast?_singleton, hc.1])
          · intro hc; exact h1 (by simp [hc.2])
        simpa using this
    | cons d rest2 =>
      have hrest : noConsecutiveHyphens (d :: rest2) = true := noConsecutiveHyphens_tail hA
      have hlast2 : (d :: rest2).getLast? ≠ some '-' ∨ B.head? ≠ some '-' := by
        rcases hlast with h1 | h1
        · left; rwa [List.getLast?_cons_cons] at h1
        · right; exact h1
      have ihd := ih hrest hlast2
      simp only [List.cons_append] at ihd ⊢
      simp only [noConsecutiveHyphens, Bool.and_eq_true, Bool.not_eq_true']
      constructor
      · simp only [noConsecutiveHyphens, Bool.and_eq_true, Bool.not_eq_true'] at hA
        exact hA.1
      · exact ihd

theorem mem_sanitizeDomain_valid {c : Char} {d : List Char}
    (h : c ∈ sanitizeDomain d) : isValidChar c = true := by
  have h1 := mem_collapseHyphens (mem_dropOneLeadingHyphen (mem_dropOneTrailingHyphen h))
  exact (List.mem_filter.mp h1).2

theorem noConsecutiveHyphens_sanitizeDomain (d : List Char) :
    noConsecutiveHyphens (sanitizeDomain d) = true :=
  noConsecutiveHyphens_dropOneTrailingHyphen
    (noConsecutiveHyphens_dropOneLeadingHyphen (noConsecutiveHyphens_collapseHyphens _))

theorem head_sanitizeDomain (d : List Char) :
    (sanitizeDomain d).head? ≠ some '-' := by
  intro h
  exact head_dropOneLeadingHyphen (noConsecutiveHyphens_collapseHyphens _)
    (head_dropOneTrailingHyphen h)

theorem getLast_sanitizeDomain (d : List Char) :
    (sanitizeDomain d).getLast? ≠ some '-' :=
  getLast_dropOneTrailingHyphen
    (noConsecutiveHyphens_dropOneLeadingHyphen (noConsecutiveHyphens_collapseHyphens _))

/-- Claim C9: `getWebsiteBucketName` maps "example.com" to
"example-com-website" and "www.My-Site.org" to "www-my-site-org-website",
and is deterministic: evaluating it twice on the same domain yields the
same result. -/
theorem C9_bucket_name_examples_and_deterministic :
    getWebsiteBucketName "example.com".toList = Except.ok "example-com-website".toList ∧
    getWebsiteBucketName "www.My-Site.org".toList = Except.ok "www-my-site-org-website".toList ∧
    ∀ d : List Char, getWebsiteBucketName d = getWebsiteBucketName d :=
  ⟨by rfl, by rfl, fun _ => rfl⟩

/-- Claim C2, counterexample: the empty domain sanitizes to fewer than 2
characters, yet `getWebsiteBucketName` does not fail with a too-short
error — it succeeds, returning "-website". -/
theorem C2_counterexample :
    (sanitizeDomain "".toList).length < 2 ∧
    getWebsiteBucketName "".toList = Except.ok "-website".toList :=
  ⟨by decide, by rfl⟩

/-- Claim C2, amended: the too-short check compares the full name
(sanitized form plus the 8-character "-website" suffix) against 3, so it
can never fire — the full name is always at least 8 characters long, and
any domain whose sanitized form is shorter than 2 characters succeeds.
A domain whose sanitized form plus suffix exceeds 63 characters fails
with the too-long validation error, and on failure no name is returned. -/
theorem C2_length_validation_amended (d : List Char) :
    3 ≤ (sanitizeDomain d ++ "-website".toList).length ∧
    ((sanitizeDomain d).length < 2 →
      getWebsiteBucketName d = Except.ok (sanitizeDomain d ++ "-website".toList)) ∧
    (63 < (sanitizeDomain d ++ "-website".toList).length →
      getWebsiteBucketName d =
        Except.error (tooLongMessage (sanitizeDomain d ++ "-website".toList))) ∧
    (∀ e, getWebsiteBucketName d = Except.error e →
      ∀ name, getWebsiteBucketName d ≠ Except.ok name) := by
  have hlen : (sanitizeDomain d ++ "-website".toList).length = (sanitizeDomain d).length + 8 := by
    simp [List.length_append]
  refine ⟨?_, ?_, ?_, ?_⟩
  · omega
  · intro hshort
    rw [getWebsiteBucketName_eq]
    rw [if_neg (by omega), if_neg (by omega)]
  · intro hlong
    rw [getWebsiteBucketName_eq]
    rw [if_neg (by omega), if_pos (by omega)]
  · intro e he name hok
    rw [he] at hok
    exact Except.noConfusion hok

/-- Claim C2, witness: the empty domain (sanitized form shorter than 2)
succeeds, and a 64-character sanitized-plus-suffix name fails with the
too-long error. -/
theorem C2_length_validation_witness :
    getWebsiteBucketName "".toList = Except.ok "-website".toList ∧
    getWebsiteBucketName (List.replicate 56 'a') =
      Except.error (tooLongMessage (List.replicate 56 'a' ++ "-website".toList)) := by
  constructor
  · have h := (C2_length_validation_amended "".toList).2.1 (by decide)
    simpa using h
  · have h := (C2_length_validation_amended (List.replicate 56 'a')).2.2.1 (by decide)
    have hs : sanitizeDomain (List.replicate 56 'a') = List.replicate 56 'a' := by decide
    rw [hs] at h
    exact h

/-- Claim C3, counterexample: on the empty domain `getWebsiteBucketName`
succeeds and returns "-website", a name that begins with a hyphen and so
violates the provider naming constraints the claim asserts of every
successful result. -/
theorem C3_counterexample :
    getWebsiteBucketName "".toList = Except.ok "-website".toList ∧
    ("-website".toList).head? = some '-' :=
  ⟨by rfl, by rfl⟩

/-- Claim C3, amended: for every domain whose sanitized form is nonempty,
a successful `getWebsiteBucketName` result contains only lowercase
alphanumerics and hyphens, is between 3 and 63 characters long, has no
leading or trailing hyphen and no run of consecutive hyphens; a domain
whose sanitized form is empty succeeds with "-website", which has a
leading hyphen. -/
theorem C3_bucket_name_constraints_amended (d : List Char) :
    (sanitizeDomain d = [] → getWebsiteBucketName d = Except.ok "-website".toList) ∧
    (sanitizeDomain d ≠ [] → ∀ name, getWebsiteBucketName d = Except.ok name →
      (∀ c ∈ name, isValidChar c = true) ∧
      3 ≤ name.length ∧ name.length ≤ 63 ∧
      name.head? ≠ some '-' ∧ name.getLast? ≠ some '-' ∧
      noConsecutiveHyphens name = true) := by
  constructor
  · intro hempty
    rw [getWebsiteBucketName_eq, hempty]
    rfl
  · intro hne name hok
    rw [getWebsiteBucketName_eq] at hok
    by_cases h3 : (sanitizeDomain d ++ "-website".toList).length < 3
    · rw [if_pos h3] at hok
      exact Except.noConfusion hok
    rw [if_neg h3] at hok
    by_cases h63 : (sanitizeDomain d ++ "-website".toList).length > 63
    · rw [if_pos h63] at hok
      exact Except.noConfusion hok
    rw [if_neg h63] at hok
    have hname : name = sanitizeDomain d ++ "-website".toList := (Except.ok.inj hok).symm
    subst hname
    refine ⟨?_, by omega, by omega, ?_, ?_, ?_⟩
    · intro c hc
      rcases List.mem_append.mp hc with h1 | h1
      · exact mem_sanitizeDomain_valid h1
      · have hsuffix : ∀ x ∈ "-website".toList, isValidChar x = true := by decide
        exact hsuffix c h1
    · obtain ⟨a, rest, hs⟩ := List.exists_cons_of_ne_nil hne
      rw [hs, List.cons_append]
      intro hcontra
      apply head_sanitizeDomain d
      rw [hs]
      simpa using hcontra
    · rw [List.getLast?_append]
      intro hcontra
      have : ("-website".toList).getLast?.or (sanitizeDomain d).getLast? = some 'e' := by
        rfl
      rw [this] at hcontra
      exact absurd (Option.some.inj hcontra) (by decide)
    · exact noConsecutiveHyphens_append (noConsecutiveHyphens_sanitizeDomain d)
        (by decide) (Or.inl (getLast_sanitizeDomain d))

/-- Claim C3, witness: on "example.com" the sanitized form is nonempty
and the returned name "example-com-website" satisfies the naming
constraints. -/
theorem C3_bucket_name_constraints_witness :
    3 ≤ "example-com-website".toList.length ∧
    "example-com-website".toList.length ≤ 63 ∧
    noConsecutiveHyphens "example-com-website".toList = true := by
  have h := (C3_bucket_name_constraints_amended "example.com".toList).2 (by decide)
    "example-com-website".toList (by rfl)
  exact ⟨h.2.1, h.2.2.1, h.2.2.2.2.2⟩

/-! ### Region resolution (getRegionFromProfile) -/

/-- One profile entry of an ini file; only the `region` key is read by
the code. `none` models an entry without a `region` key. -/
structure ProfileEntry where
  region : Option String
deriving Repr

/-- The result of `loadSharedConfigFiles`: the config file and the
credentials file, each a partial map from profile name to entry. -/
structure SharedConfigFiles where
  configFile : String → Option ProfileEntry
  credentialsFile : String → Option ProfileEntry

/-- The two region environment variables read by the code; `none` models
an unset variable. -/
structure Env where
  AWS_REGION : Option String
  AWS_DEFAULT_REGION : Option String

/-- JavaScript truthiness of a possibly-absent string: `undefined` and
the empty string are falsy. -/
def strTruthy : Option String → Bool
  | none => false
  | some s => !s.isEmpty

/-- The environment-and-default tail of `getRegionFromProfile`:
`process.env.AWS_REGION or process.env.AWS_DEFAULT_REGION or "us-east-1"`
with JavaScript truthiness. -/
def envRegion (env : Env) : String :=
  match env.AWS_REGION with
  | some r => if r.isEmpty then
      (match env.AWS_DEFAULT_REGION with
       | some r2 => if r2.isEmpty then "us-east-1" else r2
       | none => "us-east-1")
    else r
  | none =>
    match env.AWS_DEFAULT_REGION with
    | some r2 => if r2.isEmpty then "us-east-1" else r2
    | none => "us-east-1"

/-- `getRegionFromProfile` from src/deploy-website.ts: pick the profile
entry from the config file, falling back to the credentials file only if
the config file has no entry for the profile at all (the JavaScript
`configFile?.[name] or credentialsFile?.[name]` applies truthiness to
the whole entry object); return its region when truthy, otherwise fall
back to the environment and the hard-coded default. -/
def getRegionFromProfile (files : SharedConfigFiles) (env : Env) (profile : String) : String :=
  let profileName := if profile.isEmpty then "default" else profile
  let profileConfig :=
    match files.configFile profileName with
    | some e => some e
    | none => files.credentialsFile profileName
  match profileConfig with
  | some e =>
    match e.region with
    | some r => if r.isEmpty then envRegion env else r
    | none => envRegion env
  | none => envRegion env

/-- First truthy value of a list of possibly-absent strings, with a
final default. -/
def firstNonEmptyStr : List (Option String) → String → String
  | [], dflt => dflt
  | o :: rest, dflt =>
    match o with
    | some s => if s.isEmpty then firstNonEmptyStr rest dflt else s
    | none => firstNonEmptyStr rest dflt

/-- The resolution order claim C1 states, written from the claim's
words: the first non-empty value among the profile region in the config
file, the profile region in the credentials file, AWS_REGION,
AWS_DEFAULT_REGION, and finally "us-east-1". -/
def claimedRegionOrder (files : SharedConfigFiles) (env : Env) (profile : String) : String :=
  let profileName := if profile.isEmpty then "default" else profile
  firstNonEmptyStr
    [(files.configFile profileName).bind (fun e => e.region),
     (files.credentialsFile profileName).bind (fun e => e.region),
     env.AWS_REGION,
     env.AWS_DEFAULT_REGION]
    "us-east-1"

/-- The amended resolution order: a single profile entry is selected —
the config file's entry when one exists, otherwise the credentials
file's entry — and only that entry's region participates before the
environment variables and the hard-coded default. -/
def amendedRegionOrder (files : SharedConfigFiles) (env : Env) (profile : String) : String :=
  let profileName := if profile.isEmpty then "default" else profile
  let entry :=
    if (files.configFile profileName).isSome then files.configFile profileName
    else files.credentialsFile profileName
  firstNonEmptyStr
    [entry.bind (fun e => e.region), env.AWS_REGION, env.AWS_DEFAULT_REGION]
    "us-east-1"

/-- Concrete shared files refuting claim C1: the config file has an
entry for "default" without a region, the credentials file has a region
for "default". -/
def filesShadowed : SharedConfigFiles where
  configFile := fun n => if n = "default" then some { region := none } else none
  credentialsFile := fun n => if n = "default" then some { region := some "eu-west-1" } else none

/-- Claim C1, counterexample: with no environment regions set, a
"default" entry in the config file lacking a region, and a "eu-west-1"
region for "default" in the credentials file, the claimed order would
return "eu-west-1" but the code returns "us-east-1" — the credentials
file region is never consulted once the config file has any entry for
the profile. -/
theorem C1_counterexample :
    getRegionFromProfile filesShadowed ⟨none, none⟩ "" = "us-east-1" ∧
    claimedRegionOrder filesShadowed ⟨none, none⟩ "" = "eu-west-1" :=
  ⟨by rfl, by rfl⟩

theorem envRegion_eq_firstNonEmptyStr (env : Env) :
    envRegion env = firstNonEmptyStr [env.AWS_REGION, env.AWS_DEFAULT_REGION] "us-east-1" := by
  cases h1 : env.AWS_REGION with
  | none =>
    cases h2 : env.AWS_DEFAULT_REGION with
    | none => simp [envRegion, firstNonEmptyStr, h1, h2]
    | some r2 => simp [envRegion, firstNonEmptyStr, h1, h2]
  | some r1 =>
    cases h2 : env.AWS_DEFAULT_REGION with
    | none => simp [envRegion, firstNonEmptyStr, h1, h2]
    | some r2 => simp [envRegion, firstNonEmptyStr, h1, h2]

theorem getRegionFromProfile_eq_amended (files : SharedConfigFiles) (env : Env) (profile : String) :
    getRegionFromProfile files env profile = amendedRegionOrder files env profile := by
  unfold getRegionFromProfile amendedRegionOrder
  cases hc : files.configFile (if profile.isEmpty then "default" else profile) with
  | some e =>
    cases hr : e.region with
    | some r =>
      by_cases hre : r.isEmpty
      · simp [hc, hr, hre, firstNonEmptyStr, envRegion_eq_firstNonEmptyStr]
      · simp [hc, hr, hre, firstNonEmptyStr]
    | none => simp [hc, hr, firstNonEmptyStr, envRegion_eq_firstNonEmptyStr]
  | none =>
    cases hcr : files.credentialsFile (if profile.isEmpty then "default" else profile) with
    | some e =>
      cases hr : e.region with
      | some r =>
        by_cases hre : r.isEmpty
        · simp [hc, hcr, hr, hre, firstNonEmptyStr, envRegion_eq_firstNonEmptyStr]
        · simp [hc, hcr, hr, hre, firstNonEmptyStr]
      | none => simp [hc, hcr, hr, firstNonEmptyStr, envRegion_eq_firstNonEmptyStr]
    | none => simp [hc, hcr, firstNonEmptyStr, envRegion_eq_firstNonEmptyStr]

/-- Claim C1, amended: region resolution selects one profile entry — the
config file's entry for the profile when present, otherwise the
credentials file's — and returns the first non-empty value among that
entry's region, AWS_REGION, AWS_DEFAULT_REGION, and "us-east-1"; a
region in the credentials file is ignored whenever the config file
contains an entry for the profile. -/
theorem C1_region_resolution_amended (files : SharedConfigFiles) (env : Env) (profile : String) :
    getRegionFromProfile files env profile = amendedRegionOrder files env profile :=
  getRegionFromProfile_eq_amended files env profile

/-! ### Distribution discovery (findDistributionsForBucket) -/

/-- A CloudFront origin; only its domain name is read
(`origin.DomainName or ""`). -/
structure Origin where
  DomainName : Option String
deriving Repr

/-- A CloudFront distribution as read by the discovery loop: its
identifier and its origins (`dist.Origins?.Items or []`, collapsed to
one optional list). -/
structure Distribution where
  Id : Option String
  Origins : Option (List Origin)
deriving Repr

/-- `response.DistributionList`: one page of distributions and the
continuation marker. -/
structure DistributionListPart where
  Items : Option (List Distribution)
  NextMarker : Option String
deriving Repr

/-- One `ListDistributionsCommandOutput`; the `DistributionList` field
itself may be absent. -/
structure ListDistributionsOutput where
  DistributionList : Option DistributionListPart
deriving Repr

/-- `response.DistributionList?.Items or []`. -/
def pageItems (r : ListDistributionsOutput) : List Distribution :=
  match r.DistributionList with
  | some dl => dl.Items.getD []
  | none => []

/-- `response.DistributionList?.NextMarker`. -/
def pageNextMarker (r : ListDistributionsOutput) : Option String :=
  r.DistributionList.bind (fun dl => dl.NextMarker)

/-- Truthiness of the do-while guard `while (marker)`. -/
def markerTruthy : Option String → Bool
  | none => false
  | some s => !s.isEmpty

/-- `dist.Origins?.Items or []`. -/
def distOrigins (d : Distribution) : List Origin :=
  d.Origins.getD []

/-- Character-level prefix test: `charPrefix p s` holds when `p` is a
prefix of `s`. JavaScript `startsWith` compares code units; both sides
here are embedded as character lists. -/
def charPrefix : List Char → List Char → Bool
  | [], _ => true
  | _ :: _, [] => false
  | p :: ps, c :: cs => p = c && charPrefix ps cs

/-- The matching test of the inner loop:
`domainName.startsWith(bucketName + ".s3")` on
`origin.DomainName or ""` — a case-sensitive prefix match. -/
def originMatches (bucketName : String) (o : Origin) : Bool :=
  charPrefix (bucketName ++ ".s3").toList (o.DomainName.getD "").toList

/-- The inner origin loop of `findDistributionsForBucket` for one
distribution: scan the origins in order; at the first matching origin
with a truthy `dist.Id`, record that identifier and break; a matching
origin with a falsy identifier records nothing and the scan goes on. -/
def findMatchInOrigins (bucketName : String) (distId : Option String) :
    List Origin → Option String
  | [] => none
  | o :: rest =>
    if originMatches bucketName o then
      match distId with
      | some i =>
        if i.isEmpty then findMatchInOrigins bucketName distId rest else some i
      | none => findMatchInOrigins bucketName distId rest
    else findMatchInOrigins bucketName distId rest

/-- Truthiness of `dist.Id`. -/
def idTruthy : Option String → Bool
  | none => false
  | some s => !s.isEmpty

/-- The outer distribution loop over one page: push the identifier of
each distribution whose origin scan found a match. -/
def collectDists (bucketName : String) (dists : List Distribution) : List String :=
  dists.foldl
    (fun acc d =>
      match findMatchInOrigins bucketName d.Id (distOrigins d) with
      | some i => acc ++ [i]
      | none => acc)
    []

/-- The do-while pagination loop of `findDistributionsForBucket`: the
pages the server would return are given as a list consumed in request
order; each iteration collects the page's matches and continues exactly
when the returned continuation marker is truthy. The result pairs the
collected identifiers with the number of page requests issued. -/
def runFindDistributions (bucketName : String) :
    List ListDistributionsOutput → List String × Nat
  | [] => ([], 0)
  | r :: rest =>
    let ids := collectDists bucketName (pageItems r)
    if markerTruthy (pageNextMarker r) then
      let p := runFindDistributions bucketName rest
      (ids ++ p.1, p.2 + 1)
    else (ids, 1)

theorem findMatchInOrigins_characterization (b : String) (distId : Option String)
    (origins : List Origin) :
    findMatchInOrigins b distId origins =
      if idTruthy distId && origins.any (originMatches b) then distId else none := by
  induction origins with
  | nil => simp [findMatchInOrigins]
  | cons o rest ih =>
    rw [findMatchInOrigins.eq_def]
    dsimp only
    by_cases hm : originMatches b o
    · rw [if_pos hm]
      cases distId with
      | none => simp [ih, idTruthy]
      | some i =>
        dsimp only
        by_cases hi : i.isEmpty
        · rw [if_pos hi, ih]
          simp [idTruthy, hi]
        · rw [if_neg hi]
          simp [idTruthy, hi, List.any_cons, hm]
    · rw [if_neg hm]
      rw [ih]
      have hmo : originMatches b o = false := by simpa using hm
      simp [List.any_cons, hmo]

theorem collectDists_append (b : String) (dists : List Distribution) (acc : List String) :
    dists.foldl
      (fun acc d =>
        match findMatchInOrigins b d.Id (distOrigins d) with
        | some i => acc ++ [i]
        | none => acc)
      acc =
    acc ++ dists.filterMap (fun d => findMatchInOrigins b d.Id (distOrigins d)) := by
  induction dists generalizing acc with
  | nil => simp
  | cons d rest ih =>
    rw [List.foldl_cons, List.filterMap_cons]
    cases hf : findMatchInOrigins b d.Id (distOrigins d) with
    | none => simp only [ih]
    | some i => simp only [ih, List.append_assoc, List.singleton_append]

/-- Claim C4: an origin matches the bucket exactly when its domain name
begins with the case-sensitive prefix `bucketName.s3`; each distribution
contributes at most one identifier — its own `Id`, exactly when the
identifier is truthy and some origin matches; the page scan is the
corresponding filterMap, and when no origin of any distribution matches
the result is the empty list, not an error. -/
theorem C4_distribution_matching (b : String) (d : Distribution)
    (dists : List Distribution) :
    (∀ o : Origin, originMatches b o =
      charPrefix (b ++ ".s3").toList (o.DomainName.getD "").toList) ∧
    findMatchInOrigins b d.Id (distOrigins d) =
      (if idTruthy d.Id && (distOrigins d).any (originMatches b) then d.Id else none) ∧
    collectDists b dists =
      dists.filterMap (fun d2 => findMatchInOrigins b d2.Id (distOrigins d2)) ∧
    ((∀ d2 ∈ dists, ∀ o ∈ distOrigins d2, originMatches b o = false) →
      collectDists b dists = []) := by
  refine ⟨fun _ => rfl, findMatchInOrigins_characterization b d.Id (distOrigins d), ?_, ?_⟩
  · exact collectDists_append b dists []
  · intro hnone
    rw [collectDists, collectDists_append b dists []]
    rw [List.nil_append, List.filterMap_eq_nil_iff]
    intro d2 hd2
    rw [findMatchInOrigins_characterization]
    have : (distOrigins d2).any (originMatches b) = false := by
      rw [List.any_eq_false]
      intro o ho
      simp [hnone d2 hd2 o ho]
    simp [this]

/-- Claim C4, witness: with bucket "mybucket", an origin at
"mybucket.s3.amazonaws.com" matches and yields the distribution's
identifier, an origin at "otherbucket.s3.amazonaws.com" does not match,
and a page containing only the non-matching distribution collects the
empty list. -/
theorem C4_distribution_matching_witness :
    originMatches "mybucket" ⟨some "mybucket.s3.amazonaws.com"⟩ = true ∧
    originMatches "mybucket" ⟨some "otherbucket.s3.amazonaws.com"⟩ = false ∧
    findMatchInOrigins "mybucket" (some "DIST1")
      (distOrigins ⟨some "DIST1", some [⟨some "mybucket.s3.amazonaws.com"⟩]⟩) = some "DIST1" ∧
    collectDists "mybucket" [⟨some "DIST2", some [⟨some "otherbucket.s3.amazonaws.com"⟩]⟩] = [] := by
  have h := C4_distribution_matching "mybucket"
    ⟨some "DIST1", some [⟨some "mybucket.s3.amazonaws.com"⟩]⟩
    [⟨some "DIST2", some [⟨some "otherbucket.s3.amazonaws.com"⟩]⟩]
  refine ⟨by decide, by decide, ?_, ?_⟩
  · rw [h.2.1]
    decide
  · exact h.2.2.2 (by decide)

theorem runFindDistributions_cons_stop (b : String) (r : ListDistributionsOutput)
    (rest : List ListDistributionsOutput) (h : markerTruthy (pageNextMarker r) = false) :
    runFindDistributions b (r :: rest) = (collectDists b (pageItems r), 1) := by
  rw [runFindDistributions, h]
  simp

theorem runFindDistributions_cons_go (b : String) (r : ListDistributionsOutput)
    (rest : List ListDistributionsOutput) (h : markerTruthy (pageNextMarker r) = true) :
    runFindDistributions b (r :: rest) =
      (collectDists b (pageItems r) ++ (runFindDistributions b rest).1,
       (runFindDistributions b rest).2 + 1) := by
  rw [runFindDistributions, h]
  simp

/-- Claim C5: over a chain of pages in which every page but the last
carries a truthy continuation marker and the last does not, the
pagination loop issues exactly one request per page and collects the
concatenation of the per-page results; in particular termination happens
at the first page without a marker. -/
theorem C5_pagination_visits_each_page_once (b : String)
    (rs : List ListDistributionsOutput) (hne : rs ≠ [])
    (hmid : ∀ r ∈ rs.dropLast, markerTruthy (pageNextMarker r) = true)
    (hlast : markerTruthy (pageNextMarker (rs.getLast hne)) = false) :
    runFindDistributions b rs =
      ((rs.map (fun r => collectDists b (pageItems r))).flatten, rs.length) := by
  induction rs with
  | nil => exact absurd rfl hne
  | cons r rest ih =>
    cases rest with
    | nil =>
      have h1 : markerTruthy (pageNextMarker r) = false := by
        simpa [List.getLast] using hlast
      rw [runFindDistributions_cons_stop b r [] h1]
      simp
    | cons r2 rest2 =>
      have h1 : markerTruthy (pageNextMarker r) = true := by
        apply hmid
        simp [List.dropLast]
      have hne2 : r2 :: rest2 ≠ [] := by simp
      have hmid2 : ∀ x ∈ (r2 :: rest2).dropLast, markerTruthy (pageNextMarker x) = true := by
        intro x hx
        apply hmid
        rw [List.dropLast_cons_of_ne_nil hne2]
        exact List.mem_cons_of_mem r hx
      have hlast2 : markerTruthy (pageNextMarker ((r2 :: rest2).getLast hne2)) = false := by
        have : (r :: r2 :: rest2).getLast hne = (r2 :: rest2).getLast hne2 := by
          rw [List.getLast_cons]
        rwa [this] at hlast
      rw [runFindDistributions_cons_go b r (r2 :: rest2) h1, ih hne2 hmid2 hlast2]
      simp

/-- Claim C5, witness: a single page with no continuation marker and no
matching distribution is requested once and yields the empty list — no
second page request is issued. -/
theorem C5_pagination_witness :
    runFindDistributions "mybucket" [⟨some ⟨some [], none⟩⟩] = ([], 1) := by
  have h := C5_pagination_visits_each_page_once "mybucket" [⟨some ⟨some [], none⟩⟩]
    (by simp) (by simp) (by decide)
  rw [h]
  decide

/-! ### Deploy orchestration (deployWebsite) -/

/-- The credentials choice:
`profile ? fromIni(profile) : undefined` — the default credential chain
is used exactly when the profile string is falsy. -/
inductive Credentials where
  | fromIni (profile : String)
  | defaultChain
deriving Repr, DecidableEq

/-- Observable side effects of one `deployWebsite` run, in issue order:
the sync (mirror) operation with its outcome, and each
`CreateInvalidationCommand` with its distribution id and caller
reference. -/
inductive DeployEvent where
  | sync (ok : Bool)
  | invalidation (distributionId : String) (callerReference : String)
deriving Repr, DecidableEq

/-- `DeployWebsiteOptions` from src/types.ts; `none` models an omitted
optional field. -/
structure DeployWebsiteOptions where
  bucketName : String
  profile : Option String
  websitePath : Option String
deriving Repr

/-- The external world one `deployWebsite` run interacts with: the
shared ini files, the environment, the outcome the sync operation would
report, the pages the ListDistributions API would return in request
order, and the millisecond clock (`Date.now()` sampled at the i-th
invalidation). -/
structure DeployWorld where
  files : SharedConfigFiles
  env : Env
  syncResult : Except String Unit
  pages : List ListDistributionsOutput
  clock : Nat → Nat

/-- The template literal `Date.now() + "-" + distributionId` (decimal
rendering of the timestamp, then a hyphen, then the identifier). -/
def callerReference (t : Nat) (id : String) : String :=
  Nat.repr t ++ "-" ++ id

/-- The sequential invalidation loop: the i-th request samples the clock
at instant `i` and is tagged with its distribution's identifier. -/
def invalidationEvents (clock : Nat → Nat) : Nat → List String → List DeployEvent
  | _, [] => []
  | i, id :: rest =>
    DeployEvent.invalidation id (callerReference (clock i) id) ::
      invalidationEvents clock (i + 1) rest

/-- Observable outcome of one `deployWebsite` run: the resolved region,
the constructed credentials, the sync source path, the trace of issued
requests, and the returned or thrown result. -/
structure DeployResult where
  region : String
  credentials : Credentials
  syncPath : String
  events : List DeployEvent
  outcome : Except String Unit

/-- `deployWebsite` from src/deploy-website.ts: default the options,
resolve the region from the profile, build credentials (default chain
when the profile is falsy), run the sync; on sync failure rethrow a
wrapped error; on success discover the distributions linked to the
bucket and issue one full-path invalidation per discovered identifier,
sequentially. -/
def deployWebsite (w : DeployWorld) (options : DeployWebsiteOptions) : DeployResult :=
  let profile := options.profile.getD ""
  let websitePath := options.websitePath.getD "website"
  let region := getRegionFromProfile w.files w.env profile
  let credentials :=
    if profile.isEmpty then Credentials.defaultChain else Credentials.fromIni profile
  match w.syncResult with
  | Except.error msg =>
    { region := region, credentials := credentials, syncPath := websitePath,
      events := [DeployEvent.sync false],
      outcome := Except.error ("S3 sync failed: " ++ msg) }
  | Except.ok _ =>
    let distributionIds := (runFindDistributions options.bucketName w.pages).1
    { region := region, credentials := credentials, syncPath := websitePath,
      events := DeployEvent.sync true :: invalidationEvents w.clock 0 distributionIds,
      outcome := Except.ok () }

/-- Is the event an invalidation request? -/
def isInvalidationEvent : DeployEvent → Bool
  | DeployEvent.invalidation _ _ => true
  | DeployEvent.sync _ => false

/-- Distribution identifier of an invalidation event. -/
def eventDistId : DeployEvent → Option String
  | DeployEvent.invalidation i _ => some i
  | DeployEvent.sync _ => none

/-- Caller reference of an invalidation event. -/
def eventCallerRef : DeployEvent → Option String
  | DeployEvent.invalidation _ r => some r
  | DeployEvent.sync _ => none

theorem digitChar_ne_hyphen (n : Nat) : Nat.digitChar n ≠ '-' := by
  rcases Nat.lt_or_ge n 16 with h | h
  · interval_cases n <;> decide
  · simp only [Nat.digitChar]
    iterate 16 rw [if_neg (by omega)]
    decide

theorem toDigitsCore_ne_hyphen (base : Nat) :
    ∀ (fuel n : Nat) (acc : List Char), (∀ c ∈ acc, c ≠ '-') →
      ∀ c ∈ Nat.toDigitsCore base fuel n acc, c ≠ '-' := by
  intro fuel
  induction fuel with
  | zero =>
    intro n acc hacc c hc
    rw [Nat.toDigitsCore.eq_def] at hc
    exact hacc c hc
  | succ fuel ih =>
    intro n acc hacc c hc
    have heq : Nat.toDigitsCore base (fuel + 1) n acc =
        (if n / base = 0 then (n % base).digitChar :: acc
         else Nat.toDigitsCore base fuel (n / base) ((n % base).digitChar :: acc)) := by
      rw [Nat.toDigitsCore.eq_def]
    rw [heq] at hc
    have hcons : ∀ x ∈ (n % base).digitChar :: acc, x ≠ '-' := by
      intro x hx
      rcases List.mem_cons.mp hx with h1 | h1
      · rw [h1]; exact digitChar_ne_hyphen (n % base)
      · exact hacc x h1
    by_cases hz : n / base = 0
    · rw [if_pos hz] at hc
      exact hcons c hc
    · rw [if_neg hz] at hc
      exact ih (n / base) ((n % base).digitChar :: acc) hcons c hc

theorem repr_ne_hyphen (n : Nat) : ∀ c ∈ (Nat.repr n).toList, c ≠ '-' := by
  intro c hc
  have : (Nat.repr n).toList = Nat.toDigitsCore 10 (n + 1) n [] := rfl
  rw [this] at hc
  exact toDigitsCore_ne_hyphen 10 (n + 1) n [] (by intro x hx; cases hx) c hc

theorem append_hyphen_inj {a : List Char} :
    ∀ {b u v : List Char}, (∀ c ∈ a, c ≠ '-') → (∀ c ∈ b, c ≠ '-') →
      a ++ '-' :: u = b ++ '-' :: v → a = b ∧ u = v := by
  induction a with
  | nil =>
    intro b u v _ hb h
    cases b with
    | nil => simpa using h
    | cons x xs =>
      simp only [List.nil_append, List.cons_append, List.cons.injEq] at h
      exact absurd h.1.symm (hb x (List.mem_cons_self x xs))
  | cons y ys ih =>
    intro b u v ha hb h
    cases b with
    | nil =>
      simp only [List.cons_append, List.nil_append, List.cons.injEq] at h
      exact absurd h.1 (ha y (List.mem_cons_self y ys))
    | cons x xs =>
      simp only [List.cons_append, List.cons.injEq] at h
      obtain ⟨h1, h2⟩ := h
      obtain ⟨hab, huv⟩ := ih (fun c hc => ha c (List.mem_cons_of_mem y hc))
        (fun c hc => hb c (List.mem_cons_of_mem x hc)) h2
      exact ⟨by rw [h1, hab], huv⟩

theorem callerReference_inj {t1 t2 : Nat} {id1 id2 : String}
    (h : callerReference t1 id1 = callerReference t2 id2) : id1 = id2 := by
  unfold callerReference at h
  have hdata : (Nat.repr t1).toList ++ '-' :: id1.toList =
      (Nat.repr t2).toList ++ '-' :: id2.toList := by
    have h2 := congrArg String.toList h
    simpa [String.toList, String.data_append] using h2
  have := append_hyphen_inj (repr_ne_hyphen t1) (repr_ne_hyphen t2) hdata
  have hd : id1.toList = id2.toList := this.2
  have h3 := congrArg String.mk hd
  simpa [String.toList] using h3

theorem invalidationEvents_ids (clock : Nat → Nat) (i : Nat) (ids : List String) :
    (invalidationEvents clock i ids).filterMap eventDistId = ids := by
  induction ids generalizing i with
  | nil => rfl
  | cons id rest ih =>
    simp [invalidationEvents, List.filterMap_cons, eventDistId, ih]

theorem mem_invalidationEvents_refs {clock : Nat → Nat} {r : String} :
    ∀ {i : Nat} {ids : List String},
      r ∈ (invalidationEvents clock i ids).filterMap eventCallerRef →
      ∃ j id, id ∈ ids ∧ r = callerReference (clock j) id := by
  intro i ids
  induction ids generalizing i with
  | nil => intro h; simp [invalidationEvents] at h
  | cons id rest ih =>
    intro h
    simp only [invalidationEvents, List.filterMap_cons, eventCallerRef] at h
    rcases List.mem_cons.mp h with h1 | h2
    · exact ⟨i, id, List.mem_cons_self id rest, h1⟩
    · obtain ⟨j, id2, hmem, heq⟩ := ih h2
      exact ⟨j, id2, List.mem_cons_of_mem id hmem, heq⟩

theorem invalidationEvents_refs_nodup (clock : Nat → Nat) :
    ∀ (ids : List String) (i : Nat), ids.Nodup →
      ((invalidationEvents clock i ids).filterMap eventCallerRef).Nodup := by
  intro ids
  induction ids with
  | nil => intro i _; simp [invalidationEvents]
  | cons id rest ih =>
    intro i h
    rw [List.nodup_cons] at h
    simp only [invalidationEvents, List.filterMap_cons, eventCallerRef]
    rw [List.nodup_cons]
    refine ⟨?_, ih (i + 1) h.2⟩
    intro hmem
    obtain ⟨j, id2, hmem2, heq⟩ := mem_invalidationEvents_refs hmem
    have hid : id = id2 := callerReference_inj heq
    exact h.1 (hid ▸ hmem2)

/-- Claim C6: no invalidation request is issued before the sync
operation reports success — every invalidation event in the trace is
preceded by a successful sync event — and when the sync fails the trace
contains zero invalidation events. -/
theorem C6_no_invalidation_before_sync_success (w : DeployWorld) (opts : DeployWebsiteOptions) :
    (∀ msg, w.syncResult = Except.error msg →
      (deployWebsite w opts).events.filter isInvalidationEvent = []) ∧
    (∀ pre e post, (deployWebsite w opts).events = pre ++ e :: post →
      isInvalidationEvent e = true → DeployEvent.sync true ∈ pre) := by
  cases hs : w.syncResult with
  | error msg =>
    have hev : (deployWebsite w opts).events = [DeployEvent.sync false] := by
      simp [deployWebsite, hs]
    constructor
    · intro msg2 _
      rw [hev]
      rfl
    · intro pre e post hsplit hinv
      rw [hev] at hsplit
      cases pre with
      | nil =>
        simp only [List.nil_append, List.cons.injEq] at hsplit
        rw [← hsplit.1] at hinv
        exact absurd hinv (by simp [isInvalidationEvent])
      | cons p pre2 =>
        simp only [List.cons_append, List.cons.injEq] at hsplit
        exact absurd hsplit.2 (by simp)
  | ok u =>
    have hev : (deployWebsite w opts).events = DeployEvent.sync true ::
        invalidationEvents w.clock 0 (runFindDistributions opts.bucketName w.pages).1 := by
      simp [deployWebsite, hs]
    constructor
    · intro msg2 h2
      exact Except.noConfusion h2
    · intro pre e post hsplit hinv
      rw [hev] at hsplit
      cases pre with
      | nil =>
        simp only [List.nil_append, List.cons.injEq] at hsplit
        rw [← hsplit.1] at hinv
        exact absurd hinv (by simp [isInvalidationEvent])
      | cons p pre2 =>
        simp only [List.cons_append, List.cons.injEq] at hsplit
        rw [hsplit.1]
        exact List.mem_cons_self _ pre2

/-- A world whose sync operation fails with message "boom". -/
def worldSyncFail : DeployWorld where
  files := ⟨fun _ => none, fun _ => none⟩
  env := ⟨none, none⟩
  syncResult := Except.error "boom"
  pages := []
  clock := fun _ => 0

/-- Options naming bucket "mybucket" with no profile and no website
path. -/
def optsSimple : DeployWebsiteOptions where
  bucketName := "mybucket"
  profile := none
  websitePath := none

/-- Claim C6, witness: in a run whose sync fails, the trace contains no
invalidation event. -/
theorem C6_no_invalidation_before_sync_success_witness :
    (deployWebsite worldSyncFail optsSimple).events.filter isInvalidationEvent = [] :=
  (C6_no_invalidation_before_sync_success worldSyncFail optsSimple).1 "boom" rfl

/-- Claim C7: within one run, if the discovered distribution identifiers
are pairwise distinct (distinct distributions), then the caller
references of the issued invalidation requests are pairwise distinct,
whatever the clock returns at each instant — the identifier embedded
after the hyphen separates any two references. -/
theorem C7_caller_references_distinct (w : DeployWorld) (opts : DeployWebsiteOptions)
    (h : ((deployWebsite w opts).events.filterMap eventDistId).Nodup) :
    ((deployWebsite w opts).events.filterMap eventCallerRef).Nodup := by
  cases hs : w.syncResult with
  | error msg =>
    have hev : (deployWebsite w opts).events = [DeployEvent.sync false] := by
      simp [deployWebsite, hs]
    rw [hev]
    simp [eventCallerRef]
  | ok u =>
    have hev : (deployWebsite w opts).events = DeployEvent.sync true ::
        invalidationEvents w.clock 0 (runFindDistributions opts.bucketName w.pages).1 := by
      simp [deployWebsite, hs]
    rw [hev] at h ⊢
    simp only [List.filterMap_cons, eventCallerRef, eventDistId] at h ⊢
    rw [invalidationEvents_ids] at h
    exact invalidationEvents_refs_nodup w.clock _ 0 h

/-- A page listing two distributions, both with an origin at the target
bucket. -/
def pageTwoDists : ListDistributionsOutput where
  DistributionList := some
    { Items := some
        [{ Id := some "DIST1", Origins := some [{ DomainName := some "mybucket.s3.amazonaws.com" }] },
         { Id := some "DIST2", Origins := some [{ DomainName := some "mybucket.s3.amazonaws.com" }] }],
      NextMarker := none }

/-- A world whose sync succeeds and whose single page lists two matching
distributions. -/
def worldTwoDists : DeployWorld where
  files := ⟨fun _ => none, fun _ => none⟩
  env := ⟨none, none⟩
  syncResult := Except.ok ()
  pages := [pageTwoDists]
  clock := fun _ => 5

/-- Claim C7, witness: a run invalidating the two distinct distributions
DIST1 and DIST2 under a constant clock issues requests with distinct
caller references. -/
theorem C7_caller_references_distinct_witness :
    ((deployWebsite worldTwoDists optsSimple).events.filterMap eventCallerRef).Nodup :=
  C7_caller_references_distinct worldTwoDists optsSimple (by decide)

/-- Claim C8: when the sync fails with a message, the run surfaces a
single wrapped error whose text appends the underlying message to
"S3 sync failed: ", and the trace consists of the one failed sync
attempt — no invalidation, no retry. -/
theorem C8_sync_failure_wrapped (w : DeployWorld) (opts : DeployWebsiteOptions) (msg : String)
    (h : w.syncResult = Except.error msg) :
    (deployWebsite w opts).outcome = Except.error ("S3 sync failed: " ++ msg) ∧
    (deployWebsite w opts).events = [DeployEvent.sync false] := by
  constructor <;> simp [deployWebsite, h]

/-- Claim C8, witness: a sync failing with "boom" yields the single
outcome error "S3 sync failed: boom" and a one-event trace. -/
theorem C8_sync_failure_wrapped_witness :
    (deployWebsite worldSyncFail optsSimple).outcome =
      Except.error ("S3 sync failed: " ++ "boom") ∧
    (deployWebsite worldSyncFail optsSimple).events = [DeployEvent.sync false] :=
  C8_sync_failure_wrapped worldSyncFail optsSimple "boom" rfl

/-- Claim C10: when no profile is given (absent or empty), the clients
are built with the default credential chain, while the region is still
resolved through the profile machinery under the name "default" — the
"default" entry of the config (else credentials) file is consulted
before AWS_REGION, AWS_DEFAULT_REGION and "us-east-1". -/
theorem C10_default_profile_region_and_credentials (w : DeployWorld)
    (opts : DeployWebsiteOptions) (h : opts.profile = none ∨ opts.profile = some "") :
    (deployWebsite w opts).credentials = Credentials.defaultChain ∧
    (deployWebsite w opts).region = getRegionFromProfile w.files w.env "" ∧
    getRegionFromProfile w.files w.env "" =
      firstNonEmptyStr
        [(if (w.files.configFile "default").isSome then w.files.configFile "default"
          else w.files.credentialsFile "default").bind (fun e => e.region),
         w.env.AWS_REGION, w.env.AWS_DEFAULT_REGION]
        "us-east-1" := by
  have hp : opts.profile.getD "" = "" := by rcases h with h | h <;> simp [h]
  refine ⟨?_, ?_, ?_⟩
  · cases hs : w.syncResult <;> simp [deployWebsite, hs, hp] <;> decide
  · cases hs : w.syncResult <;> simp [deployWebsite, hs, hp]
  · rw [getRegionFromProfile_eq_amended w.files w.env ""]
    rfl

/-- Claim C10, witness: with no profile in the options, the run uses the
default credential chain. -/
theorem C10_default_profile_region_and_credentials_witness :
    (deployWebsite worldTwoDists optsSimple).credentials = Credentials.defaultChain :=
  (C10_default_profile_region_and_credentials worldTwoDists optsSimple (Or.inl rfl)).1

end PromoDeploy
